import Mathlib

/-!
Verification of the sequelize quote-helper and utils core.

Shallow embedding of:
  * `quoteIdentifier`, `postgresReservedWords`, `removeTicks`, `addTicks`
    (dialects/abstract/query-generator/helpers/quote: src/unnamed/part_000)
  * `combineTableNames`, `cloneDeep`, `flattenObjectDeep`,
    `mapWhereFieldNames`, `mapOptionFieldNames`, `mergeDefaults`,
    `mapValueFieldNames` (src/src/utils.ts)

JavaScript strings are modelled as Lean `String` (code points; faithful for
the ASCII/BMP data the claims quantify over).  JavaScript errors are
modelled with `Except String`, the thrown message being the error payload.
-/

set_option maxRecDepth 10000

/-! ### String primitives used by the quote helpers -/

-- Character constants, written via code points to keep the file free of
-- quote-like character literals.
def backtickChar : Char := Char.ofNat 96

def dquoteChar : Char := Char.ofNat 34

def squoteChar : Char := Char.ofNat 39

def dotStr : String := "."

def arrowStr : String := "->"

def starStr : String := "*"

-- `removeTicks(s, tickChar)`: `s.replace(new RegExp(tickChar, 'g'), '')`,
-- i.e. delete every occurrence of the (one-character) tick string.
def removeTicks (s : String) (tickChar : Char) : String :=
  String.mk (s.data.filter (fun c => c ≠ tickChar))

-- `addTicks(s, tickChar)`: `tickChar + removeTicks(s, tickChar) + tickChar`.
def addTicks (s : String) (tickChar : Char) : String :=
  String.singleton tickChar ++ removeTicks s tickChar ++ String.singleton tickChar

-- `String.prototype.includes(pat)`: substring test.
def inclAux (pat : List Char) : List Char → Bool
  | [] => pat.isPrefixOf []
  | c :: cs => pat.isPrefixOf (c :: cs) || inclAux pat cs

def strIncludes (s pat : String) : Bool :=
  inclAux pat.data s.data

-- `String.prototype.toLowerCase()` restricted to ASCII (all data the
-- claims touch is ASCII; `Char.toLower` lowers exactly the ASCII letters).
def jsToLower (s : String) : String :=
  String.mk (s.data.map Char.toLower)

-- `'a,b,c'.split(',')`.
def splitComma : List Char → List Char → List String
  | [], cur => [String.mk cur.reverse]
  | c :: cs, cur =>
      if c = ',' then String.mk cur.reverse :: splitComma cs []
      else splitComma cs (c :: cur)

/-! ### Reserved words and quoteIdentifier (src/unnamed/part_000) -/

-- The PostgreSQL 10 reserved-word string from the source, split on commas.
def postgresReservedWordsStr : String :=
  "all,analyse,analyze,and,any,array,as,asc,asymmetric,authorization,binary,both,case,cast,check,collate,collation,column,concurrently,constraint,create,cross,current_catalog,current_date,current_role,current_schema,current_time,current_timestamp,current_user,default,deferrable,desc,distinct,do,else,end,except,false,fetch,for,foreign,freeze,from,full,grant,group,having,ilike,in,initially,inner,intersect,into,is,isnull,join,lateral,leading,left,like,limit,localtime,localtimestamp,natural,not,notnull,null,offset,on,only,or,order,outer,overlaps,placing,primary,references,returning,right,select,session_user,similar,some,symmetric,table,tablesample,then,to,trailing,true,union,unique,user,using,variadic,verbose,when,where,window,with"

def postgresReservedWords : List String :=
  splitComma postgresReservedWordsStr.data []

-- `QuoteIdentifierOptions`: both fields optional; `none` models an absent
-- (or `undefined`-valued) property, which behaves identically under the
-- `options.force !== true` / `options.quoteIdentifiers === false` tests.
structure QuoteIdentifierOptions where
  force : Option Bool
  quoteIdentifiers : Option Bool
  deriving DecidableEq

-- `[${identifier.replace(/[[\]']+/g, '')}]` for the mssql branch.
def mssqlStrip (s : String) : String :=
  String.mk (s.data.filter (fun c => c ≠ '[' ∧ c ≠ ']' ∧ c ≠ squoteChar))

-- The `force` field after `options = {force: false, quoteIdentifiers: true,
-- ...options}`; an absent or undefined-valued property behaves like the
-- default under the `!== true` / `=== false` comparisons below.
def mergedForce (options : Option QuoteIdentifierOptions) : Bool :=
  ((options.getD ⟨none, none⟩).force).getD false

def mergedQuoteIdentifiers (options : Option QuoteIdentifierOptions) : Bool :=
  ((options.getD ⟨none, none⟩).quoteIdentifiers).getD true

-- `quoteIdentifier(dialect, identifier, options)`.  A thrown `Error` is an
-- `Except.error` carrying the message.
def quoteIdentifier (dialect identifier : String)
    (options : Option QuoteIdentifierOptions) : Except String String :=
  if identifier = starStr then Except.ok identifier
  else
    let force : Bool := mergedForce options
    let quoteIdentifiers : Bool := mergedQuoteIdentifiers options
    if dialect = "sqlite" ∨ dialect = "mariadb" ∨ dialect = "mysql" then
      Except.ok (addTicks (removeTicks identifier backtickChar) backtickChar)
    else if dialect = "postgres" then
      let rawIdentifier := removeTicks identifier dquoteChar
      if force = false ∧ quoteIdentifiers = false ∧
          strIncludes identifier dotStr = false ∧
          strIncludes identifier arrowStr = false ∧
          postgresReservedWords.contains (jsToLower rawIdentifier) = false then
        Except.ok rawIdentifier
      else
        Except.ok (addTicks rawIdentifier dquoteChar)
    else if dialect = "mssql" then
      Except.ok ("[" ++ mssqlStrip identifier ++ "]")
    else
      Except.error ("Dialect \x22" ++ dialect ++ "\x22 is not supported")

/-! ### combineTableNames (src/src/utils.ts) -/

-- JavaScript `<` on strings: lexicographic comparison of code units.
def jsLtChars : List Char → List Char → Bool
  | _, [] => false
  | [], _ :: _ => true
  | x :: xs, y :: ys =>
      if x.toNat < y.toNat then true
      else if y.toNat < x.toNat then false
      else jsLtChars xs ys

def jsStrLt (a b : String) : Bool :=
  jsLtChars a.data b.data

-- `combineTableNames(a, b)`:
-- `a.toLowerCase() < b.toLowerCase() ? a + b : b + a`.
def combineTableNames (tableName1 tableName2 : String) : String :=
  if jsStrLt (jsToLower tableName1) (jsToLower tableName2) then
    tableName1 ++ tableName2
  else
    tableName2 ++ tableName1

/-! ### Helper lemmas -/

theorem string_eq_of_data_eq (a b : String) (h : a.data = b.data) : a = b := by
  cases a; cases b; simp_all

theorem isPrefixOf_append_self (p t : List Char) : p.isPrefixOf (p ++ t) = true := by
  induction p with
  | nil => simp [List.isPrefixOf]
  | cons c cs ih => simp [List.isPrefixOf, ih]

theorem inclAux_nil_pat (l : List Char) : inclAux [] l = true := by
  cases l <;> simp [inclAux, List.isPrefixOf]

theorem inclAux_self (p suf : List Char) : inclAux p (p ++ suf) = true := by
  cases p with
  | nil => simpa using inclAux_nil_pat suf
  | cons c cs => simp [inclAux, isPrefixOf_append_self]

theorem inclAux_middle (pre p suf : List Char) : inclAux p (pre ++ (p ++ suf)) = true := by
  induction pre with
  | nil => simpa using inclAux_self p suf
  | cons c cs ih => simp [inclAux, ih]

theorem strIncludes_middle (pre pat suf : String) :
    strIncludes (pre ++ pat ++ suf) pat = true := by
  have h := inclAux_middle pre.data pat.data suf.data
  simpa [strIncludes, List.append_assoc] using h

theorem removeTicks_addTicks (s : String) (c : Char) :
    removeTicks (addTicks s c) c = removeTicks s c := by
  simp [removeTicks, addTicks, String.singleton, List.filter_append, List.filter_filter]

theorem addTicks_ne_star (s : String) (c : Char) : addTicks s c ≠ starStr := by
  intro h
  have h2 := congrArg String.data h
  simp [addTicks, removeTicks, String.singleton, starStr] at h2

theorem jsLtChars_asymm (xs : List Char) :
    ∀ ys, jsLtChars xs ys = true → jsLtChars ys xs = false := by
  induction xs with
  | nil =>
    intro ys h
    cases ys with
    | nil => simp [jsLtChars] at h
    | cons y ys => rfl
  | cons x xs ih =>
    intro ys h
    cases ys with
    | nil => simp [jsLtChars] at h
    | cons y ys =>
      simp only [jsLtChars] at h ⊢
      by_cases h1 : x.toNat < y.toNat
      · have h2 : ¬ y.toNat < x.toNat := by omega
        simp [h1, h2]
      · by_cases h2 : y.toNat < x.toNat
        · simp [h1, h2] at h
        · rw [if_neg h1, if_neg h2] at h
          rw [if_neg h2, if_neg h1]
          exact ih ys h

theorem jsLtChars_conn (xs : List Char) :
    ∀ ys, jsLtChars xs ys = false → jsLtChars ys xs = false → xs = ys := by
  induction xs with
  | nil =>
    intro ys h1 h2
    cases ys with
    | nil => rfl
    | cons y ys => simp [jsLtChars] at h1
  | cons x xs ih =>
    intro ys h1 h2
    cases ys with
    | nil => simp [jsLtChars] at h2
    | cons y ys =>
      simp only [jsLtChars] at h1 h2
      by_cases ha : x.toNat < y.toNat
      · simp [ha] at h1
      · by_cases hb : y.toNat < x.toNat
        · simp [ha, hb] at h2
        · have hnat : x.toNat = y.toNat := by omega
          have hxy : x = y := Char.ext (UInt32.ext hnat)
          have hrest := ih ys (by simpa [ha, hb] using h1) (by simpa [ha, hb] using h2)
          rw [hxy, hrest]

theorem jsStrLt_asymm (a b : String) (h : jsStrLt a b = true) : jsStrLt b a = false :=
  jsLtChars_asymm _ _ h

theorem jsStrLt_conn (a b : String) (h1 : jsStrLt a b = false)
    (h2 : jsStrLt b a = false) : a = b :=
  string_eq_of_data_eq _ _ (jsLtChars_conn _ _ h1 h2)

theorem string_data_append (a b : String) : (a ++ b).data = a.data ++ b.data := rfl

theorem removeTicks_idem (s : String) (c : Char) :
    removeTicks (removeTicks s c) c = removeTicks s c := by
  simp [removeTicks, List.filter_filter]

theorem addTicks_head (s : String) (c : Char) :
    (addTicks s c).data.head? = some c := by
  simp [addTicks, String.singleton, string_data_append]

theorem getLast_cons_concat (c d : Char) (l : List Char) :
    (c :: (l ++ [d])).getLast? = some d := by
  rw [← List.cons_append]
  rw [List.getLast?_concat]

theorem addTicks_last (s : String) (c : Char) :
    (addTicks s c).data.getLast? = some c := by
  simp [addTicks, String.singleton, string_data_append, getLast_cons_concat]

theorem mssqlStrip_wrap (s : String) :
    mssqlStrip ("[" ++ mssqlStrip s ++ "]") = mssqlStrip s := by
  simp [mssqlStrip, string_data_append, List.filter_append, List.filter_filter]

theorem mssqlWrap_ne_star (s : String) : ("[" ++ mssqlStrip s ++ "]") ≠ starStr := by
  intro h
  have h2 := congrArg String.data h
  simp [mssqlStrip, string_data_append, starStr] at h2

-- Evaluation of `quoteIdentifier` on each dialect family, for identifiers
-- other than the wildcard.
theorem quoteIdentifier_tick_family (dialect identifier : String)
    (options : Option QuoteIdentifierOptions)
    (hd : dialect = "sqlite" ∨ dialect = "mariadb" ∨ dialect = "mysql")
    (hstar : identifier ≠ starStr) :
    quoteIdentifier dialect identifier options
      = Except.ok (addTicks (removeTicks identifier backtickChar) backtickChar) := by
  rcases hd with h | h | h <;> subst h <;> (unfold quoteIdentifier; rw [if_neg hstar]; rfl)

theorem quoteIdentifier_mssql_eval (identifier : String)
    (options : Option QuoteIdentifierOptions) (hstar : identifier ≠ starStr) :
    quoteIdentifier (r"mssql") identifier options
      = Except.ok ("[" ++ mssqlStrip identifier ++ "]") := by
  unfold quoteIdentifier
  rw [if_neg hstar]
  rfl

theorem quoteIdentifier_postgres_eval (identifier : String)
    (options : Option QuoteIdentifierOptions) (hstar : identifier ≠ starStr) :
    quoteIdentifier (r"postgres") identifier options =
      if mergedForce options = false ∧ mergedQuoteIdentifiers options = false ∧
          strIncludes identifier dotStr = false ∧
          strIncludes identifier arrowStr = false ∧
          postgresReservedWords.contains
            (jsToLower (removeTicks identifier dquoteChar)) = false then
        Except.ok (removeTicks identifier dquoteChar)
      else
        Except.ok (addTicks (removeTicks identifier dquoteChar) dquoteChar) := by
  unfold quoteIdentifier
  rw [if_neg hstar]
  rfl

/-! ### Claim theorems: quoteIdentifier and combineTableNames -/

/-- Claim C10 (confirmed): for every dialect string, recognized or not, and
every options value, `quoteIdentifier dialect "*" options` returns the
wildcard unchanged and never raises: the wildcard passthrough precedes both
the options defaulting and the dialect dispatch, so the unsupported-dialect
error branch is unreachable for the identifier `"*"`. -/
theorem quoteIdentifier_wildcard_passthrough (dialect : String)
    (options : Option QuoteIdentifierOptions) :
    quoteIdentifier dialect starStr options = Except.ok starStr := by
  unfold quoteIdentifier
  rw [if_pos rfl]

/-- Claim C1, counterexample: at the wildcard identifier with default
options the unquoted-path guard fails (quoteIdentifiers defaults to true),
so the claim as stated predicts the double-quoted form; the code instead
returns the wildcard unquoted, and the two differ. -/
theorem quoteIdentifier_postgres_wildcard_cex :
    quoteIdentifier (r"postgres") (r"*") (some ⟨none, none⟩) = Except.ok "*" ∧
    mergedQuoteIdentifiers (some ⟨none, none⟩) ≠ false ∧
    addTicks (removeTicks (r"*") dquoteChar) dquoteChar ≠ "*" :=
  ⟨rfl, by decide, by decide⟩

/-- Claim C1 (amended: the quantification must exclude the wildcard
identifier `"*"`, which passes through unchanged): for every other
identifier and every options value, `quoteIdentifier "postgres"` returns
the identifier stripped of double quotes, unquoted, exactly when force is
not true, quoteIdentifiers is false, the identifier contains neither a dot
nor an arrow, and the lowercased stripped identifier is not a Postgres
reserved word; in every other case it returns the stripped identifier
wrapped in double quotes.  In particular a reserved word stays quoted and
a non-reserved mixed-case word is returned unquoted. -/
theorem quoteIdentifier_postgres_characterization
    (identifier : String) (options : Option QuoteIdentifierOptions)
    (hstar : identifier ≠ starStr) :
    (mergedForce options = false ∧ mergedQuoteIdentifiers options = false ∧
        strIncludes identifier dotStr = false ∧
        strIncludes identifier arrowStr = false ∧
        postgresReservedWords.contains
          (jsToLower (removeTicks identifier dquoteChar)) = false →
      quoteIdentifier (r"postgres") identifier options
        = Except.ok (removeTicks identifier dquoteChar)) ∧
    (¬ (mergedForce options = false ∧ mergedQuoteIdentifiers options = false ∧
        strIncludes identifier dotStr = false ∧
        strIncludes identifier arrowStr = false ∧
        postgresReservedWords.contains
          (jsToLower (removeTicks identifier dquoteChar)) = false) →
      quoteIdentifier (r"postgres") identifier options
        = Except.ok (addTicks (removeTicks identifier dquoteChar) dquoteChar)) ∧
    quoteIdentifier (r"postgres") (r"select") (some ⟨none, some false⟩)
      = Except.ok "\x22select\x22" ∧
    quoteIdentifier (r"postgres") (r"Foo") (some ⟨none, some false⟩)
      = Except.ok "Foo" := by
  refine ⟨?_, ?_, by rfl, by rfl⟩
  · intro h
    rw [quoteIdentifier_postgres_eval identifier options hstar, if_pos h]
  · intro h
    rw [quoteIdentifier_postgres_eval identifier options hstar, if_neg h]

/-- Witness for the C1 theorem at a concrete input. -/
theorem quoteIdentifier_postgres_characterization_witness :
    quoteIdentifier (r"postgres") (r"Bar") (some ⟨none, some false⟩)
      = Except.ok "Bar" :=
  (quoteIdentifier_postgres_characterization (r"Bar") (some ⟨none, some false⟩)
    (by decide)).1 (by decide)

/-- Claim C2, counterexample: for the unrecognized dialect name oracle the
function still returns normally when the identifier is the wildcard, so it
is not true that it never returns normally for an unrecognized dialect. -/
theorem quoteIdentifier_unsupported_wildcard_cex :
    quoteIdentifier (r"oracle") (r"*") none = Except.ok "*" := rfl

/-- Claim C2 (amended: the quantification must exclude the wildcard
identifier `"*"`, which passes through unchanged): for every dialect other
than the five recognized ones and every non-wildcard identifier and
options, `quoteIdentifier` fails with the unsupported-dialect error, whose
message contains the offending dialect name. -/
theorem quoteIdentifier_unsupported_dialect (dialect identifier : String)
    (options : Option QuoteIdentifierOptions)
    (hd1 : dialect ≠ "sqlite") (hd2 : dialect ≠ "mariadb") (hd3 : dialect ≠ "mysql")
    (hd4 : dialect ≠ "postgres") (hd5 : dialect ≠ "mssql")
    (hstar : identifier ≠ starStr) :
    quoteIdentifier dialect identifier options
      = Except.error ("Dialect \x22" ++ dialect ++ "\x22 is not supported") ∧
    strIncludes ("Dialect \x22" ++ dialect ++ "\x22 is not supported") dialect
      = true := by
  constructor
  · unfold quoteIdentifier
    rw [if_neg hstar, if_neg (by simp [hd1, hd2, hd3]), if_neg hd4, if_neg hd5]
  · exact strIncludes_middle ("Dialect \x22") dialect ("\x22 is not supported")

/-- Witness for the C2 theorem at a concrete input. -/
theorem quoteIdentifier_unsupported_dialect_witness :
    quoteIdentifier (r"oracle") (r"x") none
      = Except.error ("Dialect \x22" ++ "oracle" ++ "\x22 is not supported") ∧
    strIncludes ("Dialect \x22" ++ "oracle" ++ "\x22 is not supported") (r"oracle")
      = true :=
  quoteIdentifier_unsupported_dialect (r"oracle") (r"x") none
    (by decide) (by decide) (by decide) (by decide) (by decide) (by decide)

/-- Claim C3, counterexample: for mysql the wildcard identifier is returned
unchanged, not wrapped in backticks, so the always-wrapped claim fails on
the identifier `"*"`. -/
theorem quoteIdentifier_mysql_wildcard_cex :
    quoteIdentifier (r"mysql") (r"*") none = Except.ok "*" ∧
    addTicks (removeTicks (r"*") backtickChar) backtickChar ≠ "*" :=
  ⟨rfl, by decide⟩

/-- Claim C3 (amended: the quantification must exclude the wildcard
identifier `"*"`, which passes through unchanged): for the sqlite, mariadb
and mysql dialects the result is the identifier stripped of backticks and
wrapped in backticks, for mssql it is the identifier stripped of square
brackets and single quotes and wrapped in square brackets, in both cases
regardless of options (first and last character are the delimiter); and
quoting is idempotent: re-quoting a quoted result yields it unchanged.
In particular `quoteIdentifier "mssql" "a]b" = "[ab]"`. -/
theorem quoteIdentifier_nonpostgres_delimited
    (identifier : String) (options options2 : Option QuoteIdentifierOptions)
    (hstar : identifier ≠ starStr) :
    (∀ dialect, dialect = "sqlite" ∨ dialect = "mariadb" ∨ dialect = "mysql" →
      quoteIdentifier dialect identifier options
          = Except.ok (addTicks (removeTicks identifier backtickChar) backtickChar) ∧
        (addTicks (removeTicks identifier backtickChar) backtickChar).data.head?
          = some backtickChar ∧
        (addTicks (removeTicks identifier backtickChar) backtickChar).data.getLast?
          = some backtickChar ∧
        quoteIdentifier dialect
            (addTicks (removeTicks identifier backtickChar) backtickChar) options2
          = Except.ok (addTicks (removeTicks identifier backtickChar) backtickChar)) ∧
    (quoteIdentifier (r"mssql") identifier options
        = Except.ok ("[" ++ mssqlStrip identifier ++ "]") ∧
      ("[" ++ mssqlStrip identifier ++ "]").data.head? = some '[' ∧
      ("[" ++ mssqlStrip identifier ++ "]").data.getLast? = some ']' ∧
      quoteIdentifier (r"mssql") ("[" ++ mssqlStrip identifier ++ "]") options2
        = Except.ok ("[" ++ mssqlStrip identifier ++ "]")) ∧
    quoteIdentifier (r"mssql") (r"a]b") none = Except.ok "[ab]" := by
  refine ⟨?_, ⟨quoteIdentifier_mssql_eval identifier options hstar, ?_, ?_, ?_⟩, by rfl⟩
  · intro dialect hd
    refine ⟨quoteIdentifier_tick_family dialect identifier options hd hstar,
      addTicks_head _ _, addTicks_last _ _, ?_⟩
    have h2 := quoteIdentifier_tick_family dialect
      (addTicks (removeTicks identifier backtickChar) backtickChar) options2 hd
      (addTicks_ne_star _ _)
    rw [h2, removeTicks_addTicks, removeTicks_idem]
  · simp [mssqlStrip, string_data_append]
  · simp [mssqlStrip, string_data_append, getLast_cons_concat]
  · have h2 := quoteIdentifier_mssql_eval ("[" ++ mssqlStrip identifier ++ "]")
      options2 (mssqlWrap_ne_star _)
    rw [h2, mssqlStrip_wrap]

/-- Witness for the C3 theorem at a concrete input. -/
theorem quoteIdentifier_nonpostgres_delimited_witness :
    quoteIdentifier (r"mysql") (r"foo") none
      = Except.ok (addTicks (removeTicks (r"foo") backtickChar) backtickChar) :=
  ((quoteIdentifier_nonpostgres_delimited (r"foo") none none (by decide)).1
    (r"mysql") (Or.inr (Or.inr rfl))).1

/-- Claim C4, counterexample: two distinct names with equal lowercasings
are combined differently depending on argument order, so combineTableNames
is not order-independent on all pairs. -/
theorem combineTableNames_not_commutative_cex :
    combineTableNames (r"Foo") (r"foo") ≠ combineTableNames (r"foo") (r"Foo") := by
  decide

/-- Claim C4 (amended: order-independence holds only for pairs whose
lowercased forms differ; when the lowercasings are equal the second
argument is always placed first): for every pair of names with distinct
lowercasings the combination is order-independent, the case-insensitively
smaller name comes first with original casing preserved, and in particular
`combineTableNames "Zebra" "apple" = "appleZebra"`. -/
theorem combineTableNames_deterministic_order :
    (∀ a b : String, jsToLower a ≠ jsToLower b →
      combineTableNames a b = combineTableNames b a) ∧
    (∀ a b : String, jsStrLt (jsToLower a) (jsToLower b) = true →
      combineTableNames a b = a ++ b) ∧
    (∀ a b : String, jsStrLt (jsToLower b) (jsToLower a) = true →
      combineTableNames a b = b ++ a) ∧
    combineTableNames (r"Zebra") (r"apple") = "appleZebra" := by
  refine ⟨?_, ?_, ?_, by rfl⟩
  · intro a b h
    cases hab : jsStrLt (jsToLower a) (jsToLower b) with
    | true =>
      have hba := jsStrLt_asymm _ _ hab
      simp [combineTableNames, hab, hba]
    | false =>
      cases hba : jsStrLt (jsToLower b) (jsToLower a) with
      | true => simp [combineTableNames, hab, hba]
      | false => exact absurd (jsStrLt_conn _ _ hab hba) h
  · intro a b h
    simp [combineTableNames, h]
  · intro a b h
    have hab := jsStrLt_asymm _ _ h
    simp [combineTableNames, hab]

/-- Witness for the C4 theorem at a concrete input. -/
theorem combineTableNames_deterministic_order_witness :
    combineTableNames (r"Zebra") (r"apple") = combineTableNames (r"apple") (r"Zebra") :=
  combineTableNames_deterministic_order.1 (r"Zebra") (r"apple") (by decide)

/-! ### JavaScript value trees (for cloneDeep and flattenObjectDeep)

A `JsVal` is a JavaScript runtime value as seen by the lodash-based
helpers in utils.ts:

  * `undef`, `nullV`, `boolV`, `numV`, `strV`: primitive values.
  * `arr`: an array; `pojo`: a plain object, as a key ordered field list.
  * `classObj tag cloneResult`: a non-plain object (class instance,
    `typeof` is the string object); `cloneResult` is `some r` when the
    instance exposes a callable `clone` method, modelled by its (pure)
    return value `r`.  Its own enumerable properties are not modelled
    (prototype methods such as `clone` are not own-enumerable).
  * `fnWrapper`: an instance of the `Fn` value-wrapper class from
    utils.ts, with own fields `fn` and `args` and a prototype method
    `clone()` returning `new Fn(this.fn, this.args)`.
  * `funcV cloneResult`: a function value (`typeof` is the string
    function), optionally exposing a `clone` method.
-/

inductive JsVal where
  | undef
  | nullV
  | boolV (b : Bool)
  | numV (n : Int)
  | strV (s : String)
  | arr (elems : List JsVal)
  | pojo (fields : List (String × JsVal))
  | classObj (tag : String) (cloneResult : Option JsVal)
  | fnWrapper (fn : String) (args : List JsVal)
  | funcV (cloneResult : Option JsVal)

/-! ### cloneDeep (src/src/utils.ts lines 104-123)

`cloneDeep(obj, onlyPlain)` is `_.cloneDeepWith(obj, customizer)` where the
customizer

  * returns undefined on arrays and plain objects (lodash then clones the
    container and recurses with the customizer on each member);
  * returns the element itself when `onlyPlain` is set or when
    `typeof elem` is the string object (class instances, incl. `Fn`);
  * returns `elem.clone()` when the remaining element is truthy and has a
    callable `clone` (only reachable for function-typed values);
  * otherwise returns undefined, and lodash default-clones the primitive
    (same value).
-/

mutual
def cloneDeep (onlyPlain : Bool) : JsVal → JsVal
  | JsVal.arr xs => JsVal.arr (cloneDeepArr onlyPlain xs)
  | JsVal.pojo kvs => JsVal.pojo (cloneDeepKVs onlyPlain kvs)
  | JsVal.classObj tag c => JsVal.classObj tag c
  | JsVal.fnWrapper f args => JsVal.fnWrapper f args
  | JsVal.funcV c =>
      if onlyPlain then JsVal.funcV c
      else
        match c with
        | some r => r
        | none => JsVal.funcV c
  | JsVal.undef => JsVal.undef
  | JsVal.nullV => JsVal.nullV
  | JsVal.boolV b => JsVal.boolV b
  | JsVal.numV n => JsVal.numV n
  | JsVal.strV s => JsVal.strV s
def cloneDeepArr (onlyPlain : Bool) : List JsVal → List JsVal
  | [] => []
  | x :: xs => cloneDeep onlyPlain x :: cloneDeepArr onlyPlain xs
def cloneDeepKVs (onlyPlain : Bool) : List (String × JsVal) → List (String × JsVal)
  | [] => []
  | (k, v) :: rest => (k, cloneDeep onlyPlain v) :: cloneDeepKVs onlyPlain rest
end

theorem cloneDeepArr_eq_map (b : Bool) (xs : List JsVal) :
    cloneDeepArr b xs = xs.map (cloneDeep b) := by
  induction xs with
  | nil => rfl
  | cons x xs ih => simp [cloneDeepArr, ih]

theorem cloneDeepKVs_eq_map (b : Bool) (kvs : List (String × JsVal)) :
    cloneDeepKVs b kvs = kvs.map (fun kv => (kv.1, cloneDeep b kv.2)) := by
  induction kvs with
  | nil => rfl
  | cons kv rest ih =>
    cases kv with
    | mk k v => simp [cloneDeepKVs, ih]

/-- Claim C5, counterexample: a non-plain object that exposes a clone
capability (a class instance whose clone() returns 42) is passed through
by reference, not replaced by its clone result: the `typeof` object test
precedes the clone-capability test, so the clone branch is unreachable for
object-typed values. -/
theorem cloneDeep_clone_capability_cex :
    cloneDeep false
        (JsVal.pojo [((r"x"), JsVal.classObj (r"C") (some (JsVal.numV 42)))])
      = JsVal.pojo [((r"x"), JsVal.classObj (r"C") (some (JsVal.numV 42)))] ∧
    JsVal.pojo [((r"x"), JsVal.classObj (r"C") (some (JsVal.numV 42)))]
      ≠ JsVal.pojo [((r"x"), JsVal.numV 42)] :=
  ⟨rfl, by simp⟩

/-- Claim C5 (amended: only non-object values, i.e. functions, that expose
a clone capability are cloned via their clone method; every object-typed
value that is not an array or plain object, including the Fn value wrapper
and any class instance exposing clone, passes through by reference): with
onlyPlain not set, cloneDeep clones arrays and plain objects structurally;
object-typed non-plain values pass through unchanged; a function value
exposing clone is replaced by its clone result; functions without clone
and all values under onlyPlain pass through. -/
theorem cloneDeep_behavior :
    (∀ (onlyPlain : Bool) (xs : List JsVal),
      cloneDeep onlyPlain (JsVal.arr xs) = JsVal.arr (xs.map (cloneDeep onlyPlain))) ∧
    (∀ (onlyPlain : Bool) (kvs : List (String × JsVal)),
      cloneDeep onlyPlain (JsVal.pojo kvs)
        = JsVal.pojo (kvs.map (fun kv => (kv.1, cloneDeep onlyPlain kv.2)))) ∧
    (∀ (tag : String) (c : Option JsVal),
      cloneDeep false (JsVal.classObj tag c) = JsVal.classObj tag c) ∧
    (∀ (f : String) (args : List JsVal),
      cloneDeep false (JsVal.fnWrapper f args) = JsVal.fnWrapper f args) ∧
    (∀ r : JsVal, cloneDeep false (JsVal.funcV (some r)) = r) ∧
    (∀ c : Option JsVal, cloneDeep false (JsVal.funcV none) = JsVal.funcV none ∧
      cloneDeep true (JsVal.funcV c) = JsVal.funcV c) := by
  refine ⟨?_, ?_, ?_, ?_, ?_, ?_⟩
  · intro b xs
    simp [cloneDeep, cloneDeepArr_eq_map]
  · intro b kvs
    simp [cloneDeep, cloneDeepKVs_eq_map]
  · intro tag c
    rfl
  · intro f args
    rfl
  · intro r
    rfl
  · intro c
    exact ⟨rfl, rfl⟩

/-! ### flattenObjectDeep (src/src/utils.ts lines 358-375)

The recursion test in the source is `typeof obj[key] === 'object' &&
obj[key] !== null`: arrays, class instances and `Fn` wrappers all satisfy
it, only primitives, functions and null are leaves.  Leaf values are read
back with lodash `get(obj, key)`, which interprets dots in the key as a
path.  Iteration order is `Object.keys`: field order for plain objects,
index order for arrays, declared field order for `Fn` instances.
-/

-- `String(i)` for an array index, written with explicit fuel so that it
-- reduces inside the kernel.
def natToStrAux : Nat → Nat → List Char
  | 0, _ => []
  | fuel+1, n =>
      if n < 10 then [Char.ofNat (48 + n)]
      else natToStrAux fuel (n / 10) ++ [Char.ofNat (48 + n % 10)]

def natToStr (n : Nat) : String := String.mk (natToStrAux (n + 1) n)

-- `typeof v === 'object' && v !== null`.
def isObjType : JsVal → Bool
  | JsVal.arr _ => true
  | JsVal.pojo _ => true
  | JsVal.classObj _ _ => true
  | JsVal.fnWrapper _ _ => true
  | _ => false

-- Own-property lookup on a plain object (first binding wins; plain JS
-- objects carry at most one binding per key).
def jsAssocGet : List (String × JsVal) → String → Option JsVal
  | [], _ => none
  | (k0, v0) :: rest, k => if k0 = k then some v0 else jsAssocGet rest k

def arrGetAux : List JsVal → Nat → String → Option JsVal
  | [], _, _ => none
  | x :: xs, i, k => if natToStr i = k then some x else arrGetAux xs (i + 1) k

-- Direct own-property access `v[k]`.
def rawProp : JsVal → String → Option JsVal
  | JsVal.pojo kvs, k => jsAssocGet kvs k
  | JsVal.arr xs, k => arrGetAux xs 0 k
  | JsVal.fnWrapper f args, k =>
      if k = "fn" then some (JsVal.strV f)
      else if k = "args" then some (JsVal.arr args)
      else none
  | _, _ => none

-- lodash `get(obj, path)` on an already split dot path; a miss at any
-- step yields undefined.
def getPath : JsVal → List String → JsVal
  | v, [] => v
  | v, p :: ps =>
      match rawProp v p with
      | some w => getPath w ps
      | none => JsVal.undef

def splitOnCharAux (sep : Char) : List Char → List Char → List String
  | [], cur => [String.mk cur.reverse]
  | c :: cs, cur =>
      if c = sep then String.mk cur.reverse :: splitOnCharAux sep cs []
      else splitOnCharAux sep cs (c :: cur)

def splitDot (s : String) : List String := splitOnCharAux '.' s.data []

-- JavaScript property assignment on the accumulator object: overwrite in
-- place if the key exists, append otherwise.
def pSet : List (String × JsVal) → String → JsVal → List (String × JsVal)
  | [], k, v => [(k, v)]
  | (k0, v0) :: rest, k, v =>
      if k0 = k then (k0, v) :: rest else (k0, v0) :: pSet rest k v

-- `Object.keys`.
def jsKeys : JsVal → List String
  | JsVal.pojo kvs => kvs.map Prod.fst
  | JsVal.arr xs => (List.range xs.length).map natToStr
  | JsVal.fnWrapper _ _ => [r"fn", r"args"]
  | _ => []

-- Nesting depth of object-typed values; used as recursion fuel (the
-- recursion of flattenObject descends one object level per call, so the
-- depth bounds the number of nested calls).
mutual
def jsDepth : JsVal → Nat
  | JsVal.pojo kvs => 1 + jsDepthKVs kvs
  | JsVal.arr xs => 1 + jsDepthArr xs
  | JsVal.fnWrapper _ args => 2 + jsDepthArr args
  | _ => 0
def jsDepthKVs : List (String × JsVal) → Nat
  | [] => 0
  | (_, v) :: rest => max (jsDepth v) (jsDepthKVs rest)
def jsDepthArr : List JsVal → Nat
  | [] => 0
  | x :: xs => max (jsDepth x) (jsDepthArr xs)
end

-- The inner `flattenObject(obj, subPath)` accumulator loop.
def flattenGo : Nat → JsVal → Option String → List (String × JsVal) → List (String × JsVal)
  | 0 => fun _ _ acc => acc
  | fuel+1 => fun root subPath acc =>
      (jsKeys root).foldl
        (fun a key =>
          let path := match subPath with
            | some p => p ++ dotStr ++ key
            | none => key
          match rawProp root key with
          | some v =>
              if isObjType v then flattenGo fuel v (some path) a
              else pSet a path (getPath root (splitDot key))
          | none => pSet a path (getPath root (splitDot key)))
        acc

-- `flattenObjectDeep(value)`: non-plain-object inputs pass through.
def flattenObjectDeep (value : JsVal) : JsVal :=
  match value with
  | JsVal.pojo kvs =>
      JsVal.pojo (flattenGo (jsDepth (JsVal.pojo kvs)) (JsVal.pojo kvs) none [])
  | v => v

theorem isObjType_pojo (kvs : List (String × JsVal)) : isObjType (JsVal.pojo kvs) = true := rfl

theorem isObjType_arr (xs : List JsVal) : isObjType (JsVal.arr xs) = true := rfl

theorem jsDepth_zero_of_not_obj (v : JsVal) (h : isObjType v = false) : jsDepth v = 0 := by
  cases v <;> simp_all [jsDepth, isObjType]

/-- Claim C6, counterexample: an array value at depth is recursed into
(the source tests `typeof obj[key] === 'object'`, which arrays satisfy),
not kept as a leaf: flattening `{a:[5]}` yields `{"a.0": 5}`, while the
claim predicts the array kept whole under key `a`. -/
theorem flattenObjectDeep_array_cex :
    flattenObjectDeep (JsVal.pojo [((r"a"), JsVal.arr [JsVal.numV 5])])
      = JsVal.pojo [((r"a.0"), JsVal.numV 5)] ∧
    JsVal.pojo [((r"a.0"), JsVal.numV 5)]
      ≠ JsVal.pojo [((r"a"), JsVal.arr [JsVal.numV 5])] :=
  ⟨rfl, by simp⟩

/-- Claim C6 (amended: every non-null value of object type encountered at
depth, including arrays and non-plain objects, is recursed into via its
own enumerable keys; only non-object values, functions and null are kept
as dot-path leaves): flattenObjectDeep returns non-plain-object inputs
unchanged, and flattens nested plain objects into a depth-1 mapping with
dot-joined path keys; in particular `{a:{b:x,c:{d:y}}}` flattens to
`{"a.b": x, "a.c.d": y}` for leaf values x, y, and `{a:[x]}` flattens to
`{"a.0": x}`. -/
theorem flattenObjectDeep_behavior :
    (∀ xs : List JsVal, flattenObjectDeep (JsVal.arr xs) = JsVal.arr xs) ∧
    (∀ n : Int, flattenObjectDeep (JsVal.numV n) = JsVal.numV n) ∧
    (∀ (tag : String) (c : Option JsVal),
      flattenObjectDeep (JsVal.classObj tag c) = JsVal.classObj tag c) ∧
    (∀ v w : JsVal, isObjType v = false → isObjType w = false →
      flattenObjectDeep
          (JsVal.pojo [((r"a"), JsVal.pojo
            [((r"b"), v), ((r"c"), JsVal.pojo [((r"d"), w)])])])
        = JsVal.pojo [((r"a.b"), v), ((r"a.c.d"), w)]) ∧
    (∀ x : JsVal, isObjType x = false →
      flattenObjectDeep (JsVal.pojo [((r"a"), JsVal.arr [x])])
        = JsVal.pojo [((r"a.0"), x)]) := by
  refine ⟨fun xs => rfl, fun n => rfl, fun tag c => rfl, ?_, ?_⟩
  · intro v w hv hw
    have hv0 := jsDepth_zero_of_not_obj v hv
    have hw0 := jsDepth_zero_of_not_obj w hw
    simp [flattenObjectDeep, jsDepth, jsDepthKVs, jsDepthArr, hv0, hw0, flattenGo,
      jsKeys, rawProp, jsAssocGet, pSet, getPath, splitDot, splitOnCharAux, dotStr,
      hv, hw, natToStr, natToStrAux, arrGetAux, isObjType_pojo, isObjType_arr]
  · intro x hx
    have hx0 := jsDepth_zero_of_not_obj x hx
    simp [flattenObjectDeep, jsDepth, jsDepthKVs, jsDepthArr, hx0, flattenGo,
      jsKeys, rawProp, jsAssocGet, pSet, getPath, splitDot, splitOnCharAux, dotStr,
      hx, natToStr, natToStrAux, arrGetAux, List.range_succ, isObjType_pojo,
      isObjType_arr]

/-- Witness for the C6 theorem at a concrete input: the example from the
specification, `{a:{b:1,c:{d:2}}}` flattens to `{"a.b":1, "a.c.d":2}`. -/
theorem flattenObjectDeep_behavior_witness :
    flattenObjectDeep
        (JsVal.pojo [((r"a"), JsVal.pojo
          [((r"b"), JsVal.numV 1), ((r"c"), JsVal.pojo [((r"d"), JsVal.numV 2)])])])
      = JsVal.pojo [((r"a.b"), JsVal.numV 1), ((r"a.c.d"), JsVal.numV 2)] :=
  flattenObjectDeep_behavior.2.2.2.1 (JsVal.numV 1) (JsVal.numV 2) rfl rfl

/-! ### mergeDefaults (src/src/utils.ts lines 37-49)

`mergeDefaults(a, b)` is `_.mergeWith(a, b, customizer)` where the
customizer returns `objectValue` when it is defined and not a plain
object — except that a native (platform-builtin) function `objectValue`
yields `sourceValue || objectValue`, a truthiness test — and otherwise
returns undefined, letting lodash merge plain objects recursively per
property, deep-copy plain-object sources into undefined slots, assign
other defined source values, and assign an undefined source value only
when the key is absent from the target.

An `MVal` is a value in the merged option trees: primitives, functions
tagged with whether `_baseIsNative` holds of them, and plain objects.
Arrays and class instances are not needed by the claim and are omitted
from the universe.
-/

inductive MVal where
  | undef
  | nullV
  | boolV (b : Bool)
  | numV (n : Int)
  | strV (s : String)
  | funcV (native : Bool)
  | obj (fields : List (String × MVal))

-- Property read: absent keys read as undefined.
def mGet : List (String × MVal) → String → MVal
  | [], _ => MVal.undef
  | (k0, v0) :: rest, k => if k0 = k then v0 else mGet rest k

def mHasKey : List (String × MVal) → String → Bool
  | [], _ => false
  | (k0, _) :: rest, k => if k0 = k then true else mHasKey rest k

def mSet : List (String × MVal) → String → MVal → List (String × MVal)
  | [], k, v => [(k, v)]
  | (k0, v0) :: rest, k, v =>
      if k0 = k then (k0, v) :: rest else (k0, v0) :: mSet rest k v

-- JavaScript truthiness (NaN is not modelled).
def truthyM : MVal → Bool
  | MVal.undef => false
  | MVal.nullV => false
  | MVal.boolV b => b
  | MVal.numV n => n != 0
  | MVal.strV s => s != ""
  | MVal.funcV _ => true
  | MVal.obj _ => true

def isPlainM : MVal → Bool
  | MVal.obj _ => true
  | _ => false

-- `v !== undefined` is false exactly here.
def isUndef : MVal → Bool
  | MVal.undef => true
  | _ => false

-- `isFunction(v) && baseIsNative(v)`.
def isNativeFnM : MVal → Bool
  | MVal.funcV native => native
  | _ => false

-- Nesting depth of plain objects, used as recursion fuel: the merge
-- recursion descends one plain-object level of the source per nested
-- call, so the source depth bounds the nesting.
mutual
def mDepth : MVal → Nat
  | MVal.obj kvs => 1 + mDepthKVs kvs
  | _ => 0
def mDepthKVs : List (String × MVal) → Nat
  | [] => 0
  | (_, v) :: rest => max (mDepth v) (mDepthKVs rest)
end

-- The `_.mergeWith` loop over the source object entries, merging into
-- the target association list.
def mergeDefaultsF : Nat → List (String × MVal) → List (String × MVal) → List (String × MVal)
  | 0, a, _ => a
  | fuel+1, a, b =>
      b.foldl
        (fun acc kv =>
          let k := kv.1
          let sv := kv.2
          let ov := mGet acc k
          if isPlainM ov = false ∧ isUndef ov = false then
            if isNativeFnM ov then
              mSet acc k (if truthyM sv then sv else ov)
            else
              mSet acc k ov
          else
            match sv, ov with
            | MVal.obj skvs, MVal.obj okvs =>
                mSet acc k (MVal.obj (mergeDefaultsF fuel okvs skvs))
            | MVal.obj skvs, _ =>
                -- deep copy of a plain source into an undefined slot,
                -- realised by merging it into a fresh object
                mSet acc k (MVal.obj (mergeDefaultsF fuel [] skvs))
            | MVal.undef, _ =>
                -- an undefined source value is assigned only to an
                -- absent key
                if mHasKey acc k then acc else mSet acc k MVal.undef
            | _, _ => mSet acc k sv)
        a

def mergeDefaults : MVal → MVal → MVal
  | MVal.obj akvs, MVal.obj bkvs =>
      MVal.obj (mergeDefaultsF (mDepth (MVal.obj bkvs)) akvs bkvs)
  | a, _ => a

/-- Claim C8, counterexample: when the existing value is a native function
and b holds a defined but falsy value (false), the code keeps the native
function (`sourceValue || objectValue` tests truthiness, not presence),
while the claim says the present b value is preferred. -/
theorem mergeDefaults_native_falsy_cex :
    mergeDefaults (MVal.obj [((r"a"), MVal.funcV true)])
        (MVal.obj [((r"a"), MVal.boolV false)])
      = MVal.obj [((r"a"), MVal.funcV true)] ∧
    MVal.obj [((r"a"), MVal.funcV true)] ≠ MVal.obj [((r"a"), MVal.boolV false)] :=
  ⟨rfl, by simp⟩

theorem mDepth_singleton (k : String) (sv : MVal) :
    mDepth (MVal.obj [(k, sv)]) = mDepth sv + 1 := by
  simp [mDepth, mDepthKVs, Nat.add_comm]

/-- Claim C8 (amended: for a native built-in function value in a, b's
value is preferred only when truthy, not merely present): mergeDefaults
keeps a's value wherever a's value is defined and not a plain keyed
structure (for native functions, b's truthy value wins, b's falsy value
loses); positions undefined in a receive b's value; plain keyed
structures on both sides are merged recursively per property.  In
particular mergeDefaults({a:1},{a:2}) = {a:1} and
mergeDefaults({},{a:2}) = {a:2}. -/
theorem mergeDefaults_behavior :
    (∀ (k : String) (ov sv : MVal), isPlainM ov = false → isUndef ov = false →
      isNativeFnM ov = false →
      mergeDefaults (MVal.obj [(k, ov)]) (MVal.obj [(k, sv)])
        = MVal.obj [(k, ov)]) ∧
    (∀ (k : String) (ov sv : MVal), isNativeFnM ov = true → truthyM sv = true →
      mergeDefaults (MVal.obj [(k, ov)]) (MVal.obj [(k, sv)])
        = MVal.obj [(k, sv)]) ∧
    (∀ (k : String) (ov sv : MVal), isNativeFnM ov = true → truthyM sv = false →
      mergeDefaults (MVal.obj [(k, ov)]) (MVal.obj [(k, sv)])
        = MVal.obj [(k, ov)]) ∧
    (∀ (k : String) (sv : MVal), isPlainM sv = false →
      mergeDefaults (MVal.obj []) (MVal.obj [(k, sv)]) = MVal.obj [(k, sv)]) ∧
    (∀ (k : String) (okvs skvs : List (String × MVal)),
      mergeDefaults (MVal.obj [(k, MVal.obj okvs)]) (MVal.obj [(k, MVal.obj skvs)])
        = MVal.obj [(k, mergeDefaults (MVal.obj okvs) (MVal.obj skvs))]) ∧
    (mergeDefaults (MVal.obj [((r"a"), MVal.numV 1)]) (MVal.obj [((r"a"), MVal.numV 2)])
        = MVal.obj [((r"a"), MVal.numV 1)] ∧
      mergeDefaults (MVal.obj []) (MVal.obj [((r"a"), MVal.numV 2)])
        = MVal.obj [((r"a"), MVal.numV 2)]) := by
  refine ⟨?_, ?_, ?_, ?_, ?_, rfl, rfl⟩
  · intro k ov sv h1 h2 h3
    rw [mergeDefaults, mDepth_singleton]
    simp [mergeDefaultsF, mGet, mSet, h1, h2, h3]
  · intro k ov sv h1 h2
    have hplain : isPlainM ov = false := by cases ov <;> simp_all [isNativeFnM, isPlainM]
    have hdef : isUndef ov = false := by cases ov <;> simp_all [isNativeFnM, isUndef]
    rw [mergeDefaults, mDepth_singleton]
    simp [mergeDefaultsF, mGet, mSet, h1, h2, hplain, hdef]
  · intro k ov sv h1 h2
    have hplain : isPlainM ov = false := by cases ov <;> simp_all [isNativeFnM, isPlainM]
    have hdef : isUndef ov = false := by cases ov <;> simp_all [isNativeFnM, isUndef]
    rw [mergeDefaults, mDepth_singleton]
    simp [mergeDefaultsF, mGet, mSet, h1, h2, hplain, hdef]
  · intro k sv hsv
    rw [mergeDefaults, mDepth_singleton]
    cases sv <;>
      simp_all [mergeDefaultsF, mGet, mSet, mHasKey, mDepth, isPlainM, isUndef,
        isNativeFnM, truthyM]
  · intro k okvs skvs
    rw [mergeDefaults, mDepth_singleton]
    simp [mergeDefaultsF, mGet, mSet, mDepth, isPlainM, isUndef, mergeDefaults]

/-- Witness for the C8 theorem at a concrete input. -/
theorem mergeDefaults_behavior_witness :
    mergeDefaults (MVal.obj [((r"a"), MVal.numV 1)]) (MVal.obj [((r"a"), MVal.numV 2)])
      = MVal.obj [((r"a"), MVal.numV 1)] :=
  mergeDefaults_behavior.1 (r"a") (MVal.numV 1) (MVal.numV 2) rfl rfl rfl

/-! ### mapValueFieldNames (src/src/utils.ts lines 198-213)

`mapValueFieldNames(dataValues, fields, Model)` builds a fresh object
`values` and, for each attr in fields with `dataValues[attr] !== undefined`
and not in `Model._virtualAttributes`, assigns the value under
`Model.rawAttributes[attr].field` when that is present, truthy (the empty
string is falsy) and different from attr, else under attr itself.

Data values are modelled as a lookup returning `none` for undefined;
payloads are opaque integers.
-/

def emptyStr : String := ""

structure VRawAttr where
  field : Option String

structure VModel where
  rawAttributes : String → Option VRawAttr
  virtualAttributes : List String

def vSet : List (String × Int) → String → Int → List (String × Int)
  | [], k, v => [(k, v)]
  | (k0, v0) :: rest, k, v =>
      if k0 = k then (k0, v) :: rest else (k0, v0) :: vSet rest k v

-- One iteration of the `for (const attr of fields)` loop.
def mapValueStep (dataValues : String → Option Int) (M : VModel)
    (values : List (String × Int)) (attr : String) : List (String × Int) :=
  match dataValues attr with
  | none => values
  | some dv =>
      if M.virtualAttributes.contains attr then values
      else
        match M.rawAttributes attr with
        | some ra =>
            match ra.field with
            | some f =>
                if f ≠ emptyStr ∧ f ≠ attr then vSet values f dv
                else vSet values attr dv
            | none => vSet values attr dv
        | none => vSet values attr dv

def mapValueFieldNames (dataValues : String → Option Int) (fields : List String)
    (M : VModel) : List (String × Int) :=
  fields.foldl (mapValueStep dataValues M) []

-- The declared physical field of an attribute, if any.
def declaredField (M : VModel) (attr : String) : Option String :=
  (M.rawAttributes attr).bind VRawAttr.field

-- Modelled from the claim wording: an entry is kept exactly when its
-- value is defined and the attribute is not virtual ...
def keepAttr (dataValues : String → Option Int) (M : VModel) (attr : String) : Bool :=
  (dataValues attr).isSome && !(M.virtualAttributes.contains attr)

-- ... and is stored under the declared physical field when one is
-- declared and differs from the name, otherwise under the name itself.
def specTarget (M : VModel) (attr : String) : String :=
  match declaredField M attr with
  | some f => if f ≠ attr then f else attr
  | none => attr

def mapValueFieldNamesSpec (dataValues : String → Option Int) (fields : List String)
    (M : VModel) : List (String × Int) :=
  (fields.filter (keepAttr dataValues M)).map
    (fun attr => (specTarget M attr, (dataValues attr).getD 0))

theorem vSet_fresh (acc : List (String × Int)) (k : String) (v : Int)
    (h : k ∉ acc.map Prod.fst) : vSet acc k v = acc ++ [(k, v)] := by
  induction acc with
  | nil => rfl
  | cons p rest ih =>
    cases p with
    | mk k0 v0 =>
      simp only [List.map_cons, List.mem_cons] at h
      push_neg at h
      rw [vSet, if_neg (fun he => h.1 he.symm), ih h.2]
      simp

theorem mapValueStep_skip (dataValues : String → Option Int) (M : VModel)
    (acc : List (String × Int)) (attr : String)
    (h : keepAttr dataValues M attr = false) :
    mapValueStep dataValues M acc attr = acc := by
  unfold keepAttr at h
  unfold mapValueStep
  cases hd : dataValues attr with
  | none => rfl
  | some dv =>
    rw [hd] at h
    simp at h
    simp [h]

theorem mapValueStep_keep (dataValues : String → Option Int) (M : VModel)
    (acc : List (String × Int)) (attr : String) (dv : Int)
    (hd : dataValues attr = some dv)
    (hv : M.virtualAttributes.contains attr = false)
    (hfield : declaredField M attr ≠ some emptyStr) :
    mapValueStep dataValues M acc attr = vSet acc (specTarget M attr) dv := by
  unfold mapValueStep specTarget declaredField
  rw [hd]
  simp only [hv, Bool.false_eq_true, if_false]
  cases hra : M.rawAttributes attr with
  | none => simp
  | some ra =>
    cases hf : ra.field with
    | none => simp [hf]
    | some f =>
      have hfe : f ≠ emptyStr := by
        intro he
        apply hfield
        unfold declaredField
        rw [hra, Option.bind, hf, he]
      by_cases hfa : f = attr
      · simp [hf, hfa, hfe]
      · simp [hf, hfa, hfe]

theorem mapValueFieldNames_go (dataValues : String → Option Int) (M : VModel) :
    ∀ (fields : List String) (acc : List (String × Int)),
      (∀ attr ∈ fields, declaredField M attr ≠ some emptyStr) →
      ((fields.filter (keepAttr dataValues M)).map (specTarget M)).Nodup →
      (∀ k, k ∈ (fields.filter (keepAttr dataValues M)).map (specTarget M) →
        k ∉ acc.map Prod.fst) →
      fields.foldl (mapValueStep dataValues M) acc
        = acc ++ mapValueFieldNamesSpec dataValues fields M := by
  intro fields
  induction fields with
  | nil =>
    intro acc _ _ _
    simp [mapValueFieldNamesSpec]
  | cons a rest ih =>
    intro acc hfield hnodup hdisj
    cases hk : keepAttr dataValues M a with
    | false =>
      rw [List.foldl_cons, mapValueStep_skip dataValues M acc a hk]
      have heq : mapValueFieldNamesSpec dataValues (a :: rest) M
          = mapValueFieldNamesSpec dataValues rest M := by
        simp [mapValueFieldNamesSpec, List.filter_cons, hk]
      rw [heq]
      refine ih acc (fun x hx => hfield x (by simp [hx])) ?_ ?_
      · simpa [List.filter_cons, hk] using hnodup
      · intro k hkmem
        exact hdisj k (by simpa [List.filter_cons, hk] using hkmem)
    | true =>
      have hd : ∃ dv, dataValues a = some dv := by
        unfold keepAttr at hk
        cases hda : dataValues a with
        | none => rw [hda] at hk; simp at hk
        | some dv => exact ⟨dv, rfl⟩
      obtain ⟨dv, hd⟩ := hd
      have hv : M.virtualAttributes.contains a = false := by
        unfold keepAttr at hk
        rw [hd] at hk
        simpa using hk
      have hfilter : (a :: rest).filter (keepAttr dataValues M)
          = a :: rest.filter (keepAttr dataValues M) := by
        simp [List.filter_cons, hk]
      have hfresh : specTarget M a ∉ acc.map Prod.fst := by
        apply hdisj
        rw [hfilter]
        simp
      rw [List.foldl_cons,
        mapValueStep_keep dataValues M acc a dv hd hv (hfield a (by simp)),
        vSet_fresh acc (specTarget M a) dv hfresh]
      rw [hfilter, List.map_cons] at hnodup
      obtain ⟨hhead, hnodup2⟩ := List.nodup_cons.mp hnodup
      have hdisj2 : ∀ k, k ∈ (rest.filter (keepAttr dataValues M)).map (specTarget M) →
          k ∉ (acc ++ [(specTarget M a, dv)]).map Prod.fst := by
        intro k hkmem
        simp only [List.map_append, List.mem_append]
        intro hcon
        cases hcon with
        | inl hin =>
          exact hdisj k (by rw [hfilter]; simpa using Or.inr hkmem) hin
        | inr hin =>
          simp at hin
          exact hhead (hin ▸ hkmem)
      rw [ih (acc ++ [(specTarget M a, dv)]) (fun x hx => hfield x (by simp [hx]))
        hnodup2 hdisj2]
      have hspec : mapValueFieldNamesSpec dataValues (a :: rest) M
          = (specTarget M a, dv) :: mapValueFieldNamesSpec dataValues rest M := by
        simp [mapValueFieldNamesSpec, hfilter, hd]
      rw [hspec]
      simp

/-- Claim C9 (confirmed): mapValueFieldNames returns a fresh mapping
containing exactly the names in fields whose dataValues entry is defined
and which are not virtual attributes, each stored under the declared
physical field when one is declared (truthy) and differs from the name,
otherwise under the name, carrying the dataValues value.  Stated as
equality with a mapping built directly from the claim wording, under the
well-formedness hypotheses that no declared field is the empty string and
that the produced keys are distinct (so that object-key collisions cannot
reorder entries); the input dataValues lookup is read only, never
mutated. -/
theorem mapValueFieldNames_spec (dataValues : String → Option Int)
    (fields : List String) (M : VModel)
    (hfield : ∀ attr ∈ fields, declaredField M attr ≠ some emptyStr)
    (hnodup : ((fields.filter (keepAttr dataValues M)).map (specTarget M)).Nodup) :
    mapValueFieldNames dataValues fields M
      = mapValueFieldNamesSpec dataValues fields M := by
  unfold mapValueFieldNames
  rw [mapValueFieldNames_go dataValues M fields [] hfield hnodup (by simp)]
  simp

def dvW : String → Option Int := fun s =>
  if s = "a" then some 1
  else if s = "b" then some 2
  else if s = "c" then some 3
  else if s = "v" then some 4
  else none

def vModelW : VModel :=
  ⟨fun s =>
    if s = "a" then some ⟨some (r"fa")⟩
    else if s = "b" then some ⟨some (r"b")⟩
    else none,
  [(r"v")]⟩

def fieldsW : List String := [(r"a"), (r"b"), (r"c"), (r"v"), (r"m")]

/-- Witness for the C9 theorem at a concrete input: attribute a maps to
its distinct physical field fa, b has field equal to its own name, c has
no metadata, v is virtual (dropped), m is undefined (dropped). -/
theorem mapValueFieldNames_spec_witness :
    mapValueFieldNames dvW fieldsW vModelW = mapValueFieldNamesSpec dvW fieldsW vModelW ∧
    mapValueFieldNames dvW fieldsW vModelW
      = [((r"fa"), 1), ((r"b"), 2), ((r"c"), 3)] :=
  ⟨mapValueFieldNames_spec dvW fieldsW vModelW (by decide) (by decide), rfl⟩

/-! ### mapWhereFieldNames / mapOptionFieldNames (src/src/utils.ts lines 138-195)

Where-clause objects carry two kinds of complex keys: plain string keys
and operator symbols from the operator registry (`Op`); `getComplexKeys`
lists the operator symbols first (`getOwnPropertySymbols` filtered to the
registry) and then `Object.keys`.  `Model.rawAttributes` is keyed by
strings, so looking it up with an operator symbol misses.  Values are
leaves (opaque scalars or strings), nested plain objects, or arrays.

`mapWhereFieldNames(attributes, Model)` iterates over a snapshot of the
complex keys of `attributes`, mutating in place:

  1. if the raw attribute exists and declares `field !== fieldName`, the
     value is moved from the logical key to the physical key
     (`attributes[field] = attributes[attribute]; delete ...`);
  2. then, reading `attributes[attribute]` again (undefined if step 1
     renamed it), a plain-object value whose attribute type is not
     HSTORE/JSON is replaced by
     `mapOptionFieldNames({where: value}, Model).where`;
  3. an array value has its plain-object elements mapped in place by
     `mapWhereFieldNames`.

For an options object whose `attributes` is undefined and whose `where`
is a plain object, `mapOptionFieldNames({where: w}, Model).where` is
exactly `mapWhereFieldNames(w, Model)`; the recursion below inlines that
round trip.  The recursion is expressed with depth fuel: every nested
call descends at least one object level, and the renames of step 1 only
move values sideways, so the nesting depth of the input bounds the
recursion and the fuelled function agrees with the source on every input.
-/

inductive WKey where
  | str (s : String)
  | op (n : Nat)
  deriving DecidableEq

inductive WAttrType where
  | hstore
  | json
  | other
  deriving DecidableEq

inductive WVal where
  | leaf (n : Int)
  | strLeaf (s : String)
  | undefW
  | obj (kvs : List (WKey × WVal))
  | arr (xs : List WVal)

structure WRawAttr where
  field : String
  fieldName : String
  ty : WAttrType

structure WModel where
  raw : String → Option WRawAttr

def rawLookup (M : WModel) : WKey → Option WRawAttr
  | WKey.str s => M.raw s
  | WKey.op _ => none

def wGet : List (WKey × WVal) → WKey → WVal
  | [], _ => WVal.undefW
  | (k0, v0) :: rest, k => if k0 = k then v0 else wGet rest k

def wSet : List (WKey × WVal) → WKey → WVal → List (WKey × WVal)
  | [], k, v => [(k, v)]
  | (k0, v0) :: rest, k, v =>
      if k0 = k then (k0, v) :: rest else (k0, v0) :: wSet rest k v

def wDelete : List (WKey × WVal) → WKey → List (WKey × WVal)
  | [], _ => []
  | (k0, v0) :: rest, k =>
      if k0 = k then rest else (k0, v0) :: wDelete rest k

def isOpKey : WKey → Bool
  | WKey.op _ => true
  | WKey.str _ => false

-- `getComplexKeys`: operator symbols first, then string keys, in
-- insertion order.
def snapshotKeys (kvs : List (WKey × WVal)) : List WKey :=
  (kvs.filter (fun kv => isOpKey kv.1)).map Prod.fst ++
    (kvs.filter (fun kv => !isOpKey kv.1)).map Prod.fst

def isPlainW : WVal → Bool
  | WVal.obj _ => true
  | _ => false

-- `rawAttribute && (rawAttribute.type instanceof HSTORE || ... JSON)`.
def exemptRaw : Option WRawAttr → Bool
  | some ra =>
      match ra.ty with
      | WAttrType.hstore => true
      | WAttrType.json => true
      | WAttrType.other => false
  | none => false

-- The body of the `getComplexKeys(attributes).forEach(attribute => ...)`
-- loop, with `recur` standing for the nested mapWhereFieldNames call.
def whereStep (M : WModel) (recur : WVal → WVal)
    (kvs : List (WKey × WVal)) (key : WKey) : List (WKey × WVal) :=
  let ra := rawLookup M key
  let kvs1 :=
    match ra with
    | some r =>
        if r.field ≠ r.fieldName then
          wDelete (wSet kvs (WKey.str r.field) (wGet kvs key)) key
        else kvs
    | none => kvs
  let kvs2 :=
    match wGet kvs1 key with
    | WVal.obj inner =>
        if exemptRaw ra then kvs1
        else wSet kvs1 key (recur (WVal.obj inner))
    | _ => kvs1
  match wGet kvs2 key with
  | WVal.arr xs =>
      wSet kvs2 key (WVal.arr (xs.map (fun w =>
        match w with
        | WVal.obj ik => recur (WVal.obj ik)
        | _ => w)))
  | _ => kvs2

mutual
def wDepth : WVal → Nat
  | WVal.obj kvs => 1 + wDepthKVs kvs
  | WVal.arr xs => 1 + wDepthArr xs
  | _ => 0
def wDepthKVs : List (WKey × WVal) → Nat
  | [] => 0
  | (_, v) :: rest => max (wDepth v) (wDepthKVs rest)
def wDepthArr : List WVal → Nat
  | [] => 0
  | x :: xs => max (wDepth x) (wDepthArr xs)
end

def mapWhereF (M : WModel) : Nat → WVal → WVal
  | 0, attributes => attributes
  | fuel+1, attributes =>
      match attributes with
      | WVal.obj kvs =>
          WVal.obj ((snapshotKeys kvs).foldl
            (fun acc key => whereStep M (fun v => mapWhereF M fuel v) acc key) kvs)
      | v => v

def mapWhereFieldNames (M : WModel) (attributes : WVal) : WVal :=
  mapWhereF M (wDepth attributes) attributes

-- `options.attributes` entry mapping: a string attribute with a distinct
-- declared field becomes the aliased pair `[field, attr]`; other entries
-- pass through.
def mapAttrElem (M : WModel) (a : WVal) : WVal :=
  match a with
  | WVal.strLeaf s =>
      match M.raw s with
      | some ra =>
          if s ≠ ra.field then WVal.arr [WVal.strLeaf ra.field, WVal.strLeaf s]
          else WVal.strLeaf s
      | none => WVal.strLeaf s
  | v => v

structure WOptions where
  attributesF : Option WVal
  whereF : Option WVal

-- `mapOptionFieldNames(options, Model)`.
def mapOptionFieldNames (M : WModel) (o : WOptions) : WOptions :=
  let attrs :=
    match o.attributesF with
    | some (WVal.arr xs) => some (WVal.arr (xs.map (mapAttrElem M)))
    | x => x
  let wv :=
    match o.whereF with
    | some w => if isPlainW w then some (mapWhereFieldNames M w) else some w
    | none => none
  ⟨attrs, wv⟩

-- A concrete model renaming attribute a to pa and b to pb.
def wModel0 : WModel :=
  ⟨fun s =>
    if s = "a" then some ⟨(r"pa"), (r"a"), WAttrType.other⟩
    else if s = "b" then some ⟨(r"pb"), (r"b"), WAttrType.other⟩
    else none⟩

/-- Claim C7, counterexample: under a model that renames a to pa and b to
pb, mapping `{a: {b: 1}}` moves the value to key pa but does not recurse
into it — after the rename, `attributes[attribute]` reads undefined, so
the nested `{b: 1}` keeps its logical key b instead of being mapped to
pb as the claim requires. -/
theorem mapWhereFieldNames_renamed_no_recursion_cex :
    mapWhereFieldNames wModel0
        (WVal.obj [(WKey.str (r"a"), WVal.obj [(WKey.str (r"b"), WVal.leaf 1)])])
      = WVal.obj [(WKey.str (r"pa"), WVal.obj [(WKey.str (r"b"), WVal.leaf 1)])] ∧
    WVal.obj [(WKey.str (r"pa"), WVal.obj [(WKey.str (r"b"), WVal.leaf 1)])]
      ≠ WVal.obj [(WKey.str (r"pa"), WVal.obj [(WKey.str (r"pb"), WVal.leaf 1)])] :=
  ⟨rfl, by simp⟩

/-- Claim C7 (amended: nested plain-object values are recursively
field-mapped only at keys that were not renamed; when a key is renamed,
its value is moved to the physical key unchanged, because the recursion
test re-reads the now-deleted logical key): complex keys (string or
operator) whose model attribute declares a physical field different from
the logical field name are renamed, deleting the logical key and
inserting the physical key with the same value; a plain-object value at
a non-renamed key is recursively field-mapped unless the attribute type
is HSTORE-like or JSON-like (those are never recursed into); operator
keys (which never rename) also recurse into their plain-object values.
The parts below state, for an arbitrary model: (1) renaming of a leaf
entry; (2) a renamed key keeps its nested object unchanged, whatever the
model says about the inner key; (3) recursion at a non-renamed key maps
the nested key; (4) HSTORE/JSON attributes are never recursed into; (5)
recursion under an operator key. -/
theorem mapWhereFieldNames_behavior :
    (∀ (M : WModel) (f : String) (v : Int),
      M.raw (r"a") = some ⟨f, (r"a"), WAttrType.other⟩ → f ≠ (r"a") →
      mapWhereFieldNames M (WVal.obj [(WKey.str (r"a"), WVal.leaf v)])
        = WVal.obj [(WKey.str f, WVal.leaf v)]) ∧
    (∀ (M : WModel) (f : String) (v : Int),
      M.raw (r"a") = some ⟨f, (r"a"), WAttrType.other⟩ → f ≠ (r"a") →
      mapWhereFieldNames M
          (WVal.obj [(WKey.str (r"a"), WVal.obj [(WKey.str (r"b"), WVal.leaf v)])])
        = WVal.obj [(WKey.str f, WVal.obj [(WKey.str (r"b"), WVal.leaf v)])]) ∧
    (∀ (M : WModel) (g : String) (v : Int),
      M.raw (r"a") = none →
      M.raw (r"b") = some ⟨g, (r"b"), WAttrType.other⟩ → g ≠ (r"b") →
      mapWhereFieldNames M
          (WVal.obj [(WKey.str (r"a"), WVal.obj [(WKey.str (r"b"), WVal.leaf v)])])
        = WVal.obj [(WKey.str (r"a"), WVal.obj [(WKey.str g, WVal.leaf v)])]) ∧
    (∀ (M : WModel) (v : Int) (ty : WAttrType),
      ty = WAttrType.hstore ∨ ty = WAttrType.json →
      M.raw (r"a") = some ⟨(r"a"), (r"a"), ty⟩ →
      mapWhereFieldNames M
          (WVal.obj [(WKey.str (r"a"), WVal.obj [(WKey.str (r"b"), WVal.leaf v)])])
        = WVal.obj [(WKey.str (r"a"), WVal.obj [(WKey.str (r"b"), WVal.leaf v)])]) ∧
    (∀ (M : WModel) (n : Nat) (g : String) (v : Int),
      M.raw (r"b") = some ⟨g, (r"b"), WAttrType.other⟩ → g ≠ (r"b") →
      mapWhereFieldNames M
          (WVal.obj [(WKey.op n, WVal.obj [(WKey.str (r"b"), WVal.leaf v)])])
        = WVal.obj [(WKey.op n, WVal.obj [(WKey.str g, WVal.leaf v)])]) := by
  refine ⟨?_, ?_, ?_, ?_, ?_⟩
  · intro M f v hra hf
    have hf2 : (r"a") ≠ f := Ne.symm hf
    have hd : wDepth (WVal.obj [(WKey.str (r"a"), WVal.leaf v)]) = 1 := by
      simp [wDepth, wDepthKVs]
    unfold mapWhereFieldNames
    rw [hd]
    simp [mapWhereF, snapshotKeys, whereStep, wGet, wSet, wDelete, rawLookup,
      isOpKey, exemptRaw, isPlainW, hra, hf, hf2]
  · intro M f v hra hf
    have hf2 : (r"a") ≠ f := Ne.symm hf
    have hd : wDepth (WVal.obj [(WKey.str (r"a"),
        WVal.obj [(WKey.str (r"b"), WVal.leaf v)])]) = 2 := by
      simp [wDepth, wDepthKVs]
    unfold mapWhereFieldNames
    rw [hd]
    simp [mapWhereF, snapshotKeys, whereStep, wGet, wSet, wDelete, rawLookup,
      isOpKey, exemptRaw, isPlainW, hra, hf, hf2]
  · intro M g v hna hrb hg
    have hg2 : (r"b") ≠ g := Ne.symm hg
    have hd : wDepth (WVal.obj [(WKey.str (r"a"),
        WVal.obj [(WKey.str (r"b"), WVal.leaf v)])]) = 2 := by
      simp [wDepth, wDepthKVs]
    unfold mapWhereFieldNames
    rw [hd]
    simp [mapWhereF, snapshotKeys, whereStep, wGet, wSet, wDelete, rawLookup,
      isOpKey, exemptRaw, isPlainW, hna, hrb, hg, hg2]
  · intro M v ty hty hra
    have hd : wDepth (WVal.obj [(WKey.str (r"a"),
        WVal.obj [(WKey.str (r"b"), WVal.leaf v)])]) = 2 := by
      simp [wDepth, wDepthKVs]
    unfold mapWhereFieldNames
    rw [hd]
    rcases hty with h | h <;> subst h <;>
      simp [mapWhereF, snapshotKeys, whereStep, wGet, wSet, wDelete, rawLookup,
        isOpKey, exemptRaw, isPlainW, hra]
  · intro M n g v hrb hg
    have hg2 : (r"b") ≠ g := Ne.symm hg
    have hd : wDepth (WVal.obj [(WKey.op n,
        WVal.obj [(WKey.str (r"b"), WVal.leaf v)])]) = 2 := by
      simp [wDepth, wDepthKVs]
    unfold mapWhereFieldNames
    rw [hd]
    simp [mapWhereF, snapshotKeys, whereStep, wGet, wSet, wDelete, rawLookup,
      isOpKey, exemptRaw, isPlainW, hrb, hg, hg2]

/-- Witness for the C7 theorem at a concrete input: the model wModel0
renames the leaf entry a to pa. -/
theorem mapWhereFieldNames_behavior_witness :
    mapWhereFieldNames wModel0 (WVal.obj [(WKey.str (r"a"), WVal.leaf 1)])
      = WVal.obj [(WKey.str (r"pa"), WVal.leaf 1)] :=
  mapWhereFieldNames_behavior.1 wModel0 (r"pa") 1 rfl (by decide)
